import Mathlib

/-!
Verification of the bandr generational backup/recovery scripts.

This file is a shallow embedding of the decision logic of the four Python
scripts (sql-backup/backup.py, sql-recovery/recovery.py,
postgresql-backup/backup.py, postgresql-recovery/recovery.py):

* directory listings become lists of file names (strings);
* Python string comparison (used by list.sort and sorted) is modelled by a
  computable code-point lexicographic comparison, proved equivalent to
  Mathlib's linear order on String;
* the retention engine (promotion and expiry), the naming codec, the
  recovery selection resolver and the termination/exit contract are
  translated function by function from the source.
-/

namespace Bandr

/-! ## Python string comparison

Python compares strings by Unicode code points, left to right, shorter
strings first on ties.  `listLtb` is that comparison on the underlying
character lists; it is proved equivalent to Mathlib's `<` on `String`
(which is the lexicographic order `List.Lex` on the character data).
-/

/-- Strict lexicographic comparison of character lists, as Python's `<`
on strings (code-point order, a proper prefix is smaller). -/
def listLtb : List Char → List Char → Bool
  | _, [] => false
  | [], _ :: _ => true
  | a :: as, b :: bs => if a < b then true else if a = b then listLtb as bs else false

/-- Non-strict comparison: Python's `a <= b` is `not (b < a)`. -/
def listLeb (l₁ l₂ : List Char) : Bool := !(listLtb l₂ l₁)

theorem lex_cons_same (c : Char) (l₁ l₂ : List Char) :
    List.Lex (· < ·) (c :: l₁) (c :: l₂) ↔ List.Lex (· < ·) l₁ l₂ := by
  constructor
  · intro h
    cases h with
    | cons h => exact h
    | rel h => exact absurd h (lt_irrefl c)
  · exact List.Lex.cons

theorem listLtb_iff_lex (l₁ l₂ : List Char) :
    listLtb l₁ l₂ = true ↔ List.Lex (· < ·) l₁ l₂ := by
  induction l₁ generalizing l₂ with
  | nil =>
    cases l₂ with
    | nil =>
      simp only [listLtb, Bool.false_eq_true, false_iff]
      intro h
      cases h
    | cons b bs =>
      simp only [listLtb, true_iff]
      exact List.Lex.nil
  | cons a as ih =>
    cases l₂ with
    | nil =>
      simp only [listLtb, Bool.false_eq_true, false_iff]
      intro h
      cases h
    | cons b bs =>
      by_cases hab : a < b
      · simp only [listLtb, if_pos hab, true_iff]
        exact List.Lex.rel hab
      · by_cases heq : a = b
        · subst heq
          simp only [listLtb, if_neg hab, if_pos rfl, if_true, ih bs]
          exact (lex_cons_same a as bs).symm
        · simp only [listLtb, if_neg hab, if_neg heq, Bool.false_eq_true, false_iff]
          intro h
          cases h with
          | cons h => exact heq rfl
          | rel h => exact hab h

theorem string_lt_iff_lexData (a b : String) :
    a < b ↔ List.Lex (· < ·) a.data b.data := by
  rw [String.lt_iff_toList_lt]
  exact Iff.rfl

theorem listLtb_iff_lt (a b : String) : listLtb a.data b.data = true ↔ a < b :=
  (listLtb_iff_lex a.data b.data).trans (string_lt_iff_lexData a b).symm

/-- The sorting relation used everywhere a Python script sorts file names. -/
def pyLe (a b : String) : Prop := listLeb a.data b.data = true

theorem pyLe_iff (a b : String) : pyLe a b ↔ a ≤ b := by
  unfold pyLe listLeb
  rw [Bool.not_eq_true']
  rw [← Bool.not_eq_true, listLtb_iff_lt]
  exact not_lt

instance : DecidableRel pyLe :=
  fun a b => inferInstanceAs (Decidable (listLeb a.data b.data = true))

instance : IsTotal String pyLe :=
  ⟨fun a b => by
    rcases le_total a b with h | h
    · exact Or.inl ((pyLe_iff a b).mpr h)
    · exact Or.inr ((pyLe_iff b a).mpr h)⟩

instance : IsTrans String pyLe :=
  ⟨fun a b c hab hbc =>
    (pyLe_iff a c).mpr (le_trans ((pyLe_iff a b).mp hab) ((pyLe_iff b c).mp hbc))⟩

/-- `list.sort()` in Python: sort ascending by code-point order. -/
def sortAsc (l : List String) : List String := l.insertionSort pyLe

/-- `sorted(xs, reverse=True)` in Python: descending order. -/
def sortDesc (l : List String) : List String := (sortAsc l).reverse

theorem sortAsc_sorted_le (l : List String) : List.Sorted (· ≤ ·) (sortAsc l) :=
  List.Pairwise.imp (fun h => (pyLe_iff _ _).mp h) (List.sorted_insertionSort pyLe l)

theorem sortAsc_perm (l : List String) : (sortAsc l).Perm l :=
  List.perm_insertionSort pyLe l

/-! ## sql-backup/backup.py: the retention engine

Constants from backup.py lines 363-365: the file-name stem used for
archived records (the source calls it BACKUP_FILE_PREFIX, value
`'backup'`) and the name of the live dump file (BACKUP_LIVE_FILE).
-/

/-- The archived-record stem `'backup'` (BACKUP_FILE_PREFIX, backup.py line 365). -/
def FILE_STEM : String := "backup"

/-- BACKUP_LIVE_FILE (backup.py line 364). -/
def LIVE_FILE : String := "dumpall.sql.gz"

/-- Error numbers from backup.py lines 296-316 (only the ones the
claims need). -/
def ERROR_BU_ERROR : Nat := 5

def ERROR_NO_BU : Nat := 6

def ERROR_REMOVE : Nat := 8

def ERROR_REMOVE_EXPIRED : Nat := 11

/-- `glob.glob(os.path.join(dir, BACKUP_FILE_PREFIX + '*'))` restricted to
the names inside one tier directory: the files whose name starts with
`'backup'` (backup.py lines 651-652 and 674-675). -/
def globBackups (listing : List String) : List String :=
  listing.filter (fun f => FILE_STEM.data.isPrefixOf f.data)

/-- The non-hourly promotion step (backup.py lines 650-668).  Input: the
names in the prior tier's directory and BACKUP_PRIOR_COUNT.  The glob
result is counted; iff the count equals the configured prior count the
list is sorted ascending and element `[0]` — the oldest — is copied into
the current tier (`some oldest`); otherwise nothing is copied (`none`).
`Except.error ()` models the uncaught IndexError of `[0]` on an empty
list (reachable only when BACKUP_PRIOR_COUNT is zero). -/
def promotionStep (priorListing : List String) (priorCount : Int) :
    Except Unit (Option String) :=
  if ((globBackups priorListing).length : Int) = priorCount then
    match (sortAsc (globBackups priorListing)).head? with
    | some oldest => Except.ok (some oldest)
    | none => Except.error ()
  else Except.ok none

/-- NUM_TO_DELETE (backup.py line 676): files found minus BACKUP_COUNT,
in Python integer arithmetic. -/
def numToDelete (listing : List String) (count : Int) : Int :=
  ((globBackups listing).length : Int) - count

/-- The expiry step (backup.py lines 674-689).  Input: the names in the
current tier's directory and BACKUP_COUNT.  If NUM_TO_DELETE is
positive the glob result is sorted ascending and the first NUM_TO_DELETE
names are deleted in that order.  Result: (deleted names in deletion
order, names remaining in the directory). -/
def expiryStep (listing : List String) (count : Int) : List String × List String :=
  if 0 < numToDelete listing count then
    ((sortAsc (globBackups listing)).take (numToDelete listing count).toNat,
     (sortAsc (globBackups listing)).drop (numToDelete listing count).toNat)
  else ([], globBackups listing)

/-- C1: for a non-hourly run, a file is promoted iff the number of
prefix-matching files in the prior tier equals BACKUP_PRIOR_COUNT
exactly; the promoted file is the lexicographically smallest
prefix-matching record of the prior tier; otherwise nothing is copied. -/
theorem c1_promotion_iff_exact_count (listing : List String) (priorCount : Int)
    (hpos : 0 < priorCount) :
    ((∃ f, promotionStep listing priorCount = Except.ok (some f)) ↔
      ((globBackups listing).length : Int) = priorCount) ∧
    (∀ f, promotionStep listing priorCount = Except.ok (some f) →
      f ∈ globBackups listing ∧ ∀ g ∈ globBackups listing, f ≤ g) ∧
    (((globBackups listing).length : Int) ≠ priorCount →
      promotionStep listing priorCount = Except.ok none) := by
  by_cases hc : ((globBackups listing).length : Int) = priorCount
  · have hlen : 0 < (sortAsc (globBackups listing)).length := by
      rw [(sortAsc_perm (globBackups listing)).length_eq]
      omega
    obtain ⟨m, rest, hm⟩ :=
      List.exists_cons_of_ne_nil (List.ne_nil_of_length_pos hlen)
    have hstep : promotionStep listing priorCount = Except.ok (some m) := by
      unfold promotionStep
      rw [if_pos hc, hm]
      rfl
    have hmem : m ∈ globBackups listing :=
      (sortAsc_perm (globBackups listing)).subset (hm ▸ List.mem_cons_self m rest)
    have hmin : ∀ g ∈ globBackups listing, m ≤ g := by
      intro g hg
      have hg₂ : g ∈ sortAsc (globBackups listing) :=
        (sortAsc_perm (globBackups listing)).symm.subset hg
      rw [hm] at hg₂
      rcases List.mem_cons.mp hg₂ with h | h
      · exact le_of_eq h.symm
      · have hs := sortAsc_sorted_le (globBackups listing)
        rw [hm] at hs
        exact List.rel_of_sorted_cons hs g h
    refine ⟨⟨fun _ => hc, fun _ => ⟨m, hstep⟩⟩, ?_, fun hne => absurd hc hne⟩
    intro f hf
    rw [hstep] at hf
    have : m = f := by
      injection hf with h
      injection h
    exact this ▸ ⟨hmem, hmin⟩
  · have hstep : promotionStep listing priorCount = Except.ok none := by
      unfold promotionStep
      rw [if_neg hc]
    refine ⟨⟨?_, fun h => absurd h hc⟩, ?_, fun _ => hstep⟩
    · rintro ⟨f, hf⟩
      rw [hstep] at hf
      injection hf with h
      cases h
    · intro f hf
      rw [hstep] at hf
      injection hf with h
      cases h

/-- Witness for C1 at a concrete run: prior tier listing
`["backup-b", "backup-a", "note"]`, prior count 2. -/
theorem c1_promotion_iff_exact_count_witness :
    (0 : Int) < 2 ∧
    (((∃ f, promotionStep ["backup-b", "backup-a", "note"] 2 = Except.ok (some f)) ↔
      ((globBackups ["backup-b", "backup-a", "note"]).length : Int) = 2) ∧
    (∀ f, promotionStep ["backup-b", "backup-a", "note"] 2 = Except.ok (some f) →
      f ∈ globBackups ["backup-b", "backup-a", "note"] ∧
        ∀ g ∈ globBackups ["backup-b", "backup-a", "note"], f ≤ g) ∧
    (((globBackups ["backup-b", "backup-a", "note"]).length : Int) ≠ 2 →
      promotionStep ["backup-b", "backup-a", "note"] 2 = Except.ok none)) :=
  ⟨by decide, c1_promotion_iff_exact_count ["backup-b", "backup-a", "note"] 2 (by decide)⟩

/-- C2: after expiry the tier holds at most BACKUP_COUNT records; and if
the tier held `count + k` records (`k > 0`) before expiry, exactly the
`k` lexicographically smallest records are deleted, in ascending order,
the remaining records are the rest of the originals and are still in
sorted order. -/
theorem c2_expiry_bound_and_exact (listing : List String) (count : Int)
    (hcount : 0 ≤ count) :
    (((expiryStep listing count).2.length : Int) ≤ count) ∧
    (∀ k : Nat, 0 < k → ((globBackups listing).length : Int) = count + k →
      (expiryStep listing count).1 = (sortAsc (globBackups listing)).take k ∧
      (expiryStep listing count).2 = (sortAsc (globBackups listing)).drop k ∧
      (expiryStep listing count).1.length = k ∧
      ((expiryStep listing count).2.length : Int) = count ∧
      List.Sorted (· ≤ ·) (expiryStep listing count).2 ∧
      ((expiryStep listing count).1 ++ (expiryStep listing count).2).Perm
        (globBackups listing) ∧
      ∀ d ∈ (expiryStep listing count).1, ∀ s ∈ (expiryStep listing count).2,
        d ≤ s) := by
  have hslen : (sortAsc (globBackups listing)).length = (globBackups listing).length :=
    (sortAsc_perm (globBackups listing)).length_eq
  constructor
  · by_cases h : 0 < numToDelete listing count
    · have hstep : (expiryStep listing count).2 =
          (sortAsc (globBackups listing)).drop (numToDelete listing count).toNat := by
        unfold expiryStep
        rw [if_pos h]
      have hn : numToDelete listing count =
          ((globBackups listing).length : Int) - count := rfl
      rw [hstep, List.length_drop, hslen]
      omega
    · have hstep : (expiryStep listing count).2 = globBackups listing := by
        unfold expiryStep
        rw [if_neg h]
      have hn : numToDelete listing count =
          ((globBackups listing).length : Int) - count := rfl
      rw [hstep]
      omega
  · intro k hk hlen
    have hn : numToDelete listing count = (k : Int) := by
      unfold numToDelete
      omega
    have hpos : 0 < numToDelete listing count := by omega
    have htn : (numToDelete listing count).toNat = k := by omega
    have h1 : (expiryStep listing count).1 = (sortAsc (globBackups listing)).take k := by
      unfold expiryStep
      rw [if_pos hpos, htn]
    have h2 : (expiryStep listing count).2 = (sortAsc (globBackups listing)).drop k := by
      unfold expiryStep
      rw [if_pos hpos, htn]
    have hkle : k ≤ (sortAsc (globBackups listing)).length := by omega
    refine ⟨h1, h2, ?_, ?_, ?_, ?_, ?_⟩
    · rw [h1, List.length_take]
      omega
    · rw [h2, List.length_drop]
      omega
    · rw [h2]
      exact List.Pairwise.sublist (List.drop_sublist k _)
        (sortAsc_sorted_le (globBackups listing))
    · rw [h1, h2, List.take_append_drop]
      exact sortAsc_perm (globBackups listing)
    · rw [h1, h2]
      have hs := sortAsc_sorted_le (globBackups listing)
      rw [← List.take_append_drop k (sortAsc (globBackups listing))] at hs
      exact (List.pairwise_append.mp hs).2.2

/-- Witness for C2 at a concrete run: tier listing
`["backup-c", "backup-a", "backup-b"]`, count 2. -/
theorem c2_expiry_bound_and_exact_witness :
    (0 : Int) ≤ 2 ∧
    ((((expiryStep ["backup-c", "backup-a", "backup-b"] 2).2.length : Int) ≤ 2) ∧
    (∀ k : Nat, 0 < k →
      ((globBackups ["backup-c", "backup-a", "backup-b"]).length : Int) = 2 + k →
      (expiryStep ["backup-c", "backup-a", "backup-b"] 2).1 =
        (sortAsc (globBackups ["backup-c", "backup-a", "backup-b"])).take k ∧
      (expiryStep ["backup-c", "backup-a", "backup-b"] 2).2 =
        (sortAsc (globBackups ["backup-c", "backup-a", "backup-b"])).drop k ∧
      (expiryStep ["backup-c", "backup-a", "backup-b"] 2).1.length = k ∧
      ((expiryStep ["backup-c", "backup-a", "backup-b"] 2).2.length : Int) = 2 ∧
      List.Sorted (· ≤ ·) (expiryStep ["backup-c", "backup-a", "backup-b"] 2).2 ∧
      ((expiryStep ["backup-c", "backup-a", "backup-b"] 2).1 ++
          (expiryStep ["backup-c", "backup-a", "backup-b"] 2).2).Perm
        (globBackups ["backup-c", "backup-a", "backup-b"]) ∧
      ∀ d ∈ (expiryStep ["backup-c", "backup-a", "backup-b"] 2).1,
        ∀ s ∈ (expiryStep ["backup-c", "backup-a", "backup-b"] 2).2, d ≤ s)) :=
  ⟨by decide, c2_expiry_bound_and_exact ["backup-c", "backup-a", "backup-b"] 2 (by decide)⟩

/-! ## The naming codec

Backup records are named `<stem>-<ISO-8601 date-time>-<live file>`
(backup.py lines 626-629): the time is `datetime.isoformat()` with the
fractional part removed by `split('.')[0]` and a literal `Z` appended.
The recovery side extracts the date-time with the regular expression
BACKUP_DATETIME_RE (recovery.py line 108).
-/

/-- A date-time at second precision, the payload of a backup file name.
Python's `datetime` fields are kept as plain naturals. -/
structure Timestamp where
  year : Nat
  month : Nat
  day : Nat
  hour : Nat
  minute : Nat
  second : Nat
deriving DecidableEq

/-- Field ranges of a real `datetime` value (Python restricts years to
1..9999, so the rendering is always fixed width). -/
def Timestamp.valid (t : Timestamp) : Prop :=
  t.year < 10000 ∧ 1 ≤ t.month ∧ t.month ≤ 12 ∧ 1 ≤ t.day ∧ t.day ≤ 31 ∧
    t.hour < 24 ∧ t.minute < 60 ∧ t.second < 60

instance (t : Timestamp) : Decidable t.valid := by
  unfold Timestamp.valid
  infer_instance

/-- Chronological order of two date-times: compare year, then month,
then day, hour, minute, second. -/
def Timestamp.chronoLT (t₁ t₂ : Timestamp) : Prop :=
  t₁.year < t₂.year ∨ (t₁.year = t₂.year ∧
    (t₁.month < t₂.month ∨ (t₁.month = t₂.month ∧
      (t₁.day < t₂.day ∨ (t₁.day = t₂.day ∧
        (t₁.hour < t₂.hour ∨ (t₁.hour = t₂.hour ∧
          (t₁.minute < t₂.minute ∨ (t₁.minute = t₂.minute ∧
            t₁.second < t₂.second)))))))))

instance (t₁ t₂ : Timestamp) : Decidable (t₁.chronoLT t₂) := by
  unfold Timestamp.chronoLT
  infer_instance

/-- The decimal digit character for `n mod 10` (`'0'` is code point 48);
in every use below the argument is already a single digit. -/
def dchar (n : Nat) : Char := Char.ofNat (48 + n % 10)

/-- `n` rendered as `k` decimal digits, zero padded, most significant
first — Python's `%04d`-style rendering used by `datetime.isoformat`. -/
def padNum : Nat → Nat → List Char
  | 0, _ => []
  | k + 1, n => dchar (n / 10 ^ k) :: padNum k (n % 10 ^ k)

/-- `YYYY-MM-DDTHH:MM:SS`: `datetime.isoformat()` without a fractional
part. -/
def tsBase (t : Timestamp) : List Char :=
  padNum 4 t.year ++ ('-' :: (padNum 2 t.month ++ ('-' :: (padNum 2 t.day ++
    ('T' :: (padNum 2 t.hour ++ (':' :: (padNum 2 t.minute ++
      (':' :: padNum 2 t.second)))))))))

/-- `datetime.isoformat()`: appends `.ffffff` when the microsecond field
is non-zero. -/
def isoformat (t : Timestamp) (micro : Nat) : List Char :=
  tsBase t ++ (if micro = 0 then [] else '.' :: padNum 6 micro)

/-- `s.split('.')[0]`: the characters before the first `'.'`. -/
def splitDotHead (l : List Char) : List Char := l.takeWhile (fun c => c ≠ '.')

/-- BACKUP_TIME (backup.py line 626): isoformat, fractional seconds
stripped, `'Z'` appended. -/
def backupTime (t : Timestamp) (micro : Nat) : List Char :=
  splitDotHead (isoformat t micro) ++ ['Z']

/-- COPY_BACKUP_FILE (backup.py lines 627-629):
`'%s-%s-%s' % (BACKUP_FILE_PREFIX, BACKUP_TIME, BACKUP_LIVE_FILE)`. -/
def encodeName (stem : String) (t : Timestamp) (micro : Nat) (live : String) : String :=
  ⟨stem.data ++ ('-' :: (backupTime t micro ++ ('-' :: live.data)))⟩

/-! Digit arithmetic facts. -/

theorem digitVal_lt_ten {a b : Nat} (ha : a < 10) (hb : b < 10) :
    (dchar a < dchar b ↔ a < b) ∧ (dchar a = dchar b ↔ a = b) := by
  interval_cases a <;> interval_cases b <;> exact ⟨by decide, by decide⟩

theorem dchar_lt_iff {a b : Nat} (ha : a < 10) (hb : b < 10) :
    dchar a < dchar b ↔ a < b := (digitVal_lt_ten ha hb).1

theorem dchar_eq_iff {a b : Nat} (ha : a < 10) (hb : b < 10) :
    dchar a = dchar b ↔ a = b := (digitVal_lt_ten ha hb).2

theorem dchar_isDigit (n : Nat) : (dchar n).isDigit = true := by
  have hm : n % 10 < 10 := Nat.mod_lt _ (by norm_num)
  revert hm
  unfold dchar
  generalize n % 10 = m
  intro hm
  interval_cases m <;> decide

theorem dchar_ne_dot (n : Nat) : dchar n ≠ '.' := by
  have hm : n % 10 < 10 := Nat.mod_lt _ (by norm_num)
  revert hm
  unfold dchar
  generalize n % 10 = m
  intro hm
  interval_cases m <;> decide

/-- `c.toNat - 48`: the numeric value of a decimal digit character,
as the recovery-side date/time parser reads it. -/
def digitVal (c : Char) : Nat := c.toNat - 48

theorem digitVal_dchar (n : Nat) : digitVal (dchar n) = n % 10 := by
  have hm : n % 10 < 10 := Nat.mod_lt _ (by norm_num)
  revert hm
  unfold dchar digitVal
  generalize n % 10 = m
  intro hm
  interval_cases m <;> rfl

theorem padNum_length (k n : Nat) : (padNum k n).length = k := by
  induction k generalizing n with
  | zero => rfl
  | succ k ih => simp [padNum, ih]

theorem mem_padNum {k n : Nat} {c : Char} (hc : c ∈ padNum k n) :
    ∃ d, c = dchar d := by
  induction k generalizing n with
  | zero => cases hc
  | succ k ih =>
    rcases List.mem_cons.mp hc with h | h
    · exact ⟨n / 10 ^ k, h⟩
    · exact ih h

/-- Mixed-radix comparison: with remainders below the base, compare
quotients first, remainders on a tie. -/
theorem radix_lt_of {P a b : Nat} (hP : 0 < P)
    (h : a / P < b / P ∨ (a / P = b / P ∧ a % P < b % P)) : a < b := by
  rcases h with h | ⟨h, h₂⟩
  · calc a = P * (a / P) + a % P := (Nat.div_add_mod a P).symm
      _ < P * (a / P) + P := by have := Nat.mod_lt a hP; omega
      _ = P * (a / P + 1) := by ring
      _ ≤ P * (b / P) := Nat.mul_le_mul_left P h
      _ ≤ P * (b / P) + b % P := Nat.le_add_right _ _
      _ = b := Nat.div_add_mod b P
  · have ha := Nat.div_add_mod a P
    have hb := Nat.div_add_mod b P
    rw [h] at ha
    omega

theorem radix_lt_iff {P a b : Nat} (hP : 0 < P) :
    a / P < b / P ∨ (a / P = b / P ∧ a % P < b % P) ↔ a < b := by
  constructor
  · exact radix_lt_of hP
  · intro h
    rcases Nat.lt_trichotomy (a / P) (b / P) with h₁ | h₁ | h₁
    · exact Or.inl h₁
    · refine Or.inr ⟨h₁, ?_⟩
      have ha := Nat.div_add_mod a P
      have hb := Nat.div_add_mod b P
      rw [h₁] at ha
      omega
    · exact absurd (radix_lt_of hP (Or.inl h₁)) (by omega)

theorem radix_eq_iff {P a b : Nat} (_hP : 0 < P) :
    a / P = b / P ∧ a % P = b % P ↔ a = b := by
  constructor
  · rintro ⟨h₁, h₂⟩
    have ha := Nat.div_add_mod a P
    have hb := Nat.div_add_mod b P
    rw [h₁, h₂] at ha
    omega
  · rintro rfl
    exact ⟨rfl, rfl⟩

/-! Lexicographic order on character lists: decomposition lemmas. -/

theorem lex_cons_iff (a b : Char) (l₁ l₂ : List Char) :
    List.Lex (· < ·) (a :: l₁) (b :: l₂) ↔ a < b ∨ (a = b ∧ List.Lex (· < ·) l₁ l₂) := by
  constructor
  · intro h
    cases h with
    | cons h => exact Or.inr ⟨rfl, h⟩
    | rel h => exact Or.inl h
  · rintro (h | ⟨rfl, h⟩)
    · exact List.Lex.rel h
    · exact List.Lex.cons h

theorem lex_irrefl (l : List Char) : ¬ List.Lex (· < ·) l l := by
  induction l with
  | nil => intro h; cases h
  | cons a l ih => intro h; exact ih ((lex_cons_same a l l).mp h)

theorem lex_append_iff {s₁ s₂ : List Char} (t₁ t₂ : List Char)
    (h : s₁.length = s₂.length) :
    List.Lex (· < ·) (s₁ ++ t₁) (s₂ ++ t₂) ↔
      List.Lex (· < ·) s₁ s₂ ∨ (s₁ = s₂ ∧ List.Lex (· < ·) t₁ t₂) := by
  induction s₁ generalizing s₂ with
  | nil =>
    cases s₂ with
    | nil =>
      constructor
      · intro hx
        exact Or.inr ⟨rfl, hx⟩
      · rintro (hx | ⟨-, hx⟩)
        · cases hx
        · exact hx
    | cons b s₂ => simp at h
  | cons a s₁ ih =>
    cases s₂ with
    | nil => simp at h
    | cons b s₂ =>
      simp only [List.cons_append]
      rw [lex_cons_iff, lex_cons_iff, ih (by simpa using h)]
      constructor
      · rintro (hx | ⟨rfl, (hx | ⟨rfl, hx⟩)⟩)
        · exact Or.inl (Or.inl hx)
        · exact Or.inl (Or.inr ⟨rfl, hx⟩)
        · exact Or.inr ⟨rfl, hx⟩
      · rintro ((hx | ⟨rfl, hx⟩) | ⟨heq, hx⟩)
        · exact Or.inl hx
        · exact Or.inr ⟨rfl, Or.inl hx⟩
        · cases heq
          exact Or.inr ⟨rfl, Or.inr ⟨rfl, hx⟩⟩

theorem lex_same_append_iff (u v₁ v₂ : List Char) :
    List.Lex (· < ·) (u ++ v₁) (u ++ v₂) ↔ List.Lex (· < ·) v₁ v₂ := by
  induction u with
  | nil => exact Iff.rfl
  | cons a u ih => simp only [List.cons_append, lex_cons_same, ih]

theorem padNum_lex_iff : ∀ (k a b : Nat), a < 10 ^ k → b < 10 ^ k →
    (List.Lex (· < ·) (padNum k a) (padNum k b) ↔ a < b) := by
  intro k
  induction k with
  | zero =>
    intro a b ha hb
    simp only [pow_zero, Nat.lt_one_iff] at ha hb
    subst ha
    subst hb
    simp only [padNum]
    constructor
    · intro h; cases h
    · omega
  | succ k ih =>
    intro a b ha hb
    have hP : 0 < 10 ^ k := Nat.pos_pow_of_pos k (by norm_num)
    have hqa : a / 10 ^ k < 10 := by
      rw [Nat.div_lt_iff_lt_mul hP]
      rw [pow_succ] at ha
      omega
    have hqb : b / 10 ^ k < 10 := by
      rw [Nat.div_lt_iff_lt_mul hP]
      rw [pow_succ] at hb
      omega
    simp only [padNum]
    rw [lex_cons_iff, dchar_lt_iff hqa hqb, dchar_eq_iff hqa hqb,
      ih (a % 10 ^ k) (b % 10 ^ k) (Nat.mod_lt a hP) (Nat.mod_lt b hP)]
    exact radix_lt_iff hP

theorem padNum_eq_iff : ∀ (k a b : Nat), a < 10 ^ k → b < 10 ^ k →
    (padNum k a = padNum k b ↔ a = b) := by
  intro k
  induction k with
  | zero =>
    intro a b ha hb
    simp only [pow_zero, Nat.lt_one_iff] at ha hb
    subst ha
    subst hb
    simp [padNum]
  | succ k ih =>
    intro a b ha hb
    have hP : 0 < 10 ^ k := Nat.pos_pow_of_pos k (by norm_num)
    have hqa : a / 10 ^ k < 10 := by
      rw [Nat.div_lt_iff_lt_mul hP]
      rw [pow_succ] at ha
      omega
    have hqb : b / 10 ^ k < 10 := by
      rw [Nat.div_lt_iff_lt_mul hP]
      rw [pow_succ] at hb
      omega
    simp only [padNum, List.cons.injEq]
    rw [dchar_eq_iff hqa hqb,
      ih (a % 10 ^ k) (b % 10 ^ k) (Nat.mod_lt a hP) (Nat.mod_lt b hP)]
    exact radix_eq_iff hP

/-- One fixed-width field followed by a separator: compare the field,
then the rest. -/
theorem level_iff {a₁ a₂ : Nat} {u₁ u₂ v₁ v₂ : List Char} (c : Char) {B : Prop}
    (hlen : u₁.length = u₂.length)
    (hu : List.Lex (· < ·) u₁ u₂ ↔ a₁ < a₂) (hueq : u₁ = u₂ ↔ a₁ = a₂)
    (hrest : List.Lex (· < ·) v₁ v₂ ↔ B) :
    List.Lex (· < ·) (u₁ ++ (c :: v₁)) (u₂ ++ (c :: v₂)) ↔
      a₁ < a₂ ∨ (a₁ = a₂ ∧ B) := by
  rw [lex_append_iff _ _ hlen, lex_cons_same, hu, hueq, hrest]

theorem tsBase_length (t : Timestamp) : (tsBase t).length = 19 := by
  simp [tsBase, padNum_length]

theorem tsBase_lex_iff (t₁ t₂ : Timestamp) (h₁ : t₁.valid) (h₂ : t₂.valid) :
    List.Lex (· < ·) (tsBase t₁) (tsBase t₂) ↔ t₁.chronoLT t₂ := by
  obtain ⟨hy₁, hmoa₁, hmob₁, hda₁, hdb₁, hh₁, hmi₁, hs₁⟩ := h₁
  obtain ⟨hy₂, hmoa₂, hmob₂, hda₂, hdb₂, hh₂, hmi₂, hs₂⟩ := h₂
  have b4 : (10:Nat) ^ 4 = 10000 := by norm_num
  have b2 : (10:Nat) ^ 2 = 100 := by norm_num
  have hby₁ : t₁.year < 10 ^ 4 := by omega
  have hby₂ : t₂.year < 10 ^ 4 := by omega
  have hbmo₁ : t₁.month < 10 ^ 2 := by omega
  have hbmo₂ : t₂.month < 10 ^ 2 := by omega
  have hbd₁ : t₁.day < 10 ^ 2 := by omega
  have hbd₂ : t₂.day < 10 ^ 2 := by omega
  have hbh₁ : t₁.hour < 10 ^ 2 := by omega
  have hbh₂ : t₂.hour < 10 ^ 2 := by omega
  have hbmi₁ : t₁.minute < 10 ^ 2 := by omega
  have hbmi₂ : t₂.minute < 10 ^ 2 := by omega
  have hbs₁ : t₁.second < 10 ^ 2 := by omega
  have hbs₂ : t₂.second < 10 ^ 2 := by omega
  have hsec := padNum_lex_iff 2 t₁.second t₂.second hbs₁ hbs₂
  have hmin := level_iff ':' (by simp [padNum_length])
    (padNum_lex_iff 2 t₁.minute t₂.minute hbmi₁ hbmi₂)
    (padNum_eq_iff 2 t₁.minute t₂.minute hbmi₁ hbmi₂) hsec
  have hhou := level_iff ':' (by simp [padNum_length])
    (padNum_lex_iff 2 t₁.hour t₂.hour hbh₁ hbh₂)
    (padNum_eq_iff 2 t₁.hour t₂.hour hbh₁ hbh₂) hmin
  have hday := level_iff 'T' (by simp [padNum_length])
    (padNum_lex_iff 2 t₁.day t₂.day hbd₁ hbd₂)
    (padNum_eq_iff 2 t₁.day t₂.day hbd₁ hbd₂) hhou
  have hmon := level_iff '-' (by simp [padNum_length])
    (padNum_lex_iff 2 t₁.month t₂.month hbmo₁ hbmo₂)
    (padNum_eq_iff 2 t₁.month t₂.month hbmo₁ hbmo₂) hday
  have hyr := level_iff '-' (by simp [padNum_length])
    (padNum_lex_iff 4 t₁.year t₂.year hby₁ hby₂)
    (padNum_eq_iff 4 t₁.year t₂.year hby₁ hby₂) hmon
  exact hyr

theorem takeWhile_append_all {p : Char → Bool} (l₁ : List Char) (l₂ : List Char)
    (h : ∀ c ∈ l₁, p c = true) :
    List.takeWhile p (l₁ ++ l₂) = l₁ ++ List.takeWhile p l₂ := by
  induction l₁ with
  | nil => rfl
  | cons a l ih =>
    have ha : p a = true := h a (List.mem_cons_self a l)
    simp only [List.cons_append, List.takeWhile_cons, ha, if_true]
    rw [ih (fun c hc => h c (List.mem_cons_of_mem a hc))]

theorem tsBase_no_dot (t : Timestamp) : ∀ c ∈ tsBase t, c ≠ '.' := by
  intro c hc
  unfold tsBase at hc
  simp only [List.mem_append, List.mem_cons] at hc
  rcases hc with hp | rfl | hp | rfl | hp | rfl | hp | rfl | hp | rfl | hp
  · obtain ⟨d, rfl⟩ := mem_padNum hp
    exact dchar_ne_dot d
  · decide
  · obtain ⟨d, rfl⟩ := mem_padNum hp
    exact dchar_ne_dot d
  · decide
  · obtain ⟨d, rfl⟩ := mem_padNum hp
    exact dchar_ne_dot d
  · decide
  · obtain ⟨d, rfl⟩ := mem_padNum hp
    exact dchar_ne_dot d
  · decide
  · obtain ⟨d, rfl⟩ := mem_padNum hp
    exact dchar_ne_dot d
  · decide
  · obtain ⟨d, rfl⟩ := mem_padNum hp
    exact dchar_ne_dot d

/-- Stripping the fractional part of the isoformat rendering always
leaves the 19-character date-time: BACKUP_TIME is the second-precision
rendering plus `'Z'`, whatever the microsecond field was. -/
theorem backupTime_eq (t : Timestamp) (micro : Nat) :
    backupTime t micro = tsBase t ++ ['Z'] := by
  unfold backupTime isoformat splitDotHead
  have hall : ∀ c ∈ tsBase t, (fun c => decide (c ≠ '.')) c = true := by
    intro c hc
    simpa using tsBase_no_dot t c hc
  by_cases hm : micro = 0
  · rw [if_pos hm, List.append_nil]
    rw [show tsBase t = tsBase t ++ [] from (List.append_nil _).symm]
    rw [takeWhile_append_all _ _ hall]
    simp [List.takeWhile]
  · rw [if_neg hm, takeWhile_append_all _ _ hall]
    simp [List.takeWhile]

/-- C5: lexicographic order on encoded backup file names coincides with
chronological order of the embedded timestamps (same stem, same live
suffix, valid timestamps). -/
theorem c5_lex_iff_chronological (stem live : String) (t₁ t₂ : Timestamp)
    (m₁ m₂ : Nat) (h₁ : t₁.valid) (h₂ : t₂.valid) :
    encodeName stem t₁ m₁ live < encodeName stem t₂ m₂ live ↔ t₁.chronoLT t₂ := by
  rw [string_lt_iff_lexData]
  show List.Lex (· < ·)
      (stem.data ++ ('-' :: (backupTime t₁ m₁ ++ ('-' :: live.data))))
      (stem.data ++ ('-' :: (backupTime t₂ m₂ ++ ('-' :: live.data)))) ↔ _
  rw [backupTime_eq t₁ m₁, backupTime_eq t₂ m₂]
  rw [lex_same_append_iff, lex_cons_same]
  rw [List.append_assoc, List.append_assoc, List.singleton_append]
  rw [lex_append_iff _ _ (by rw [tsBase_length, tsBase_length])]
  rw [tsBase_lex_iff t₁ t₂ h₁ h₂]
  constructor
  · rintro (h | ⟨-, h⟩)
    · exact h
    · exact absurd h (lex_irrefl _)
  · exact Or.inl

/-- Witness for C5 at the two concrete timestamps of the specification
(January vs February 2021). -/
theorem c5_lex_iff_chronological_witness :
    Timestamp.valid ⟨2021, 1, 1, 0, 0, 0⟩ ∧ Timestamp.valid ⟨2021, 2, 1, 0, 0, 0⟩ ∧
    (encodeName "backup" ⟨2021, 1, 1, 0, 0, 0⟩ 0 "dumpall.sql.gz" <
        encodeName "backup" ⟨2021, 2, 1, 0, 0, 0⟩ 0 "dumpall.sql.gz" ↔
      Timestamp.chronoLT ⟨2021, 1, 1, 0, 0, 0⟩ ⟨2021, 2, 1, 0, 0, 0⟩) :=
  ⟨by decide, by decide,
    c5_lex_iff_chronological "backup" "dumpall.sql.gz" ⟨2021, 1, 1, 0, 0, 0⟩
      ⟨2021, 2, 1, 0, 0, 0⟩ 0 0 (by decide) (by decide)⟩

/-! ## Extraction: BACKUP_DATETIME_RE (recovery.py line 108)

The recovery side finds the embedded date-time with
`re.compile(r'-(\d\d\d\d-\d\d-\d\dT\d\d:\d\d:\d\dZ)-').search(name)`:
the leftmost occurrence of a dash, four digits, dash, two digits, dash,
two digits, `T`, two digits, colon, two digits, colon, two digits, `Z`,
dash; the captured group (without the surrounding dashes) is then parsed
into a date-time (`dateutil.parser.parse`).
-/

/-- One position of the pattern: a literal character or a `\d` class. -/
inductive CharClass where
  | lit (c : Char)
  | digit

/-- Does one character match one pattern position? -/
def CharClass.matchesC : CharClass → Char → Bool
  | .lit c, d => d = c
  | .digit, d => d.isDigit

/-- BACKUP_DATETIME_RE, position by position. -/
def tsPattern : List CharClass :=
  CharClass.lit '-' :: (List.replicate 4 CharClass.digit ++ (CharClass.lit '-' ::
    (List.replicate 2 CharClass.digit ++ (CharClass.lit '-' ::
      (List.replicate 2 CharClass.digit ++ (CharClass.lit 'T' ::
        (List.replicate 2 CharClass.digit ++ (CharClass.lit ':' ::
          (List.replicate 2 CharClass.digit ++ (CharClass.lit ':' ::
            (List.replicate 2 CharClass.digit ++
              [CharClass.lit 'Z', CharClass.lit '-'])))))))))))

/-- Does the pattern match at the head of the text? -/
def matchesAt : List CharClass → List Char → Bool
  | [], _ => true
  | _ :: _, [] => false
  | p :: ps, c :: cs => p.matchesC c && matchesAt ps cs

/-- `re.search`: scan left to right for the first position where the
pattern matches; return the suffix starting there. -/
def reSearch : List Char → Option (List Char)
  | [] => none
  | c :: cs => if matchesAt tsPattern (c :: cs) then some (c :: cs) else reSearch cs

/-- The captured group of the first match: 20 characters after the
leading dash (`YYYY-MM-DDTHH:MM:SSZ`). -/
def extractGroup (l : List Char) : Option (List Char) :=
  (reSearch l).map (fun m => (m.drop 1).take 20)

/-- Parsing the captured group back into a date-time, as
`dateutil.parser.parse` reads the fixed-width ISO-8601 fields. -/
def parseTs : List Char → Option Timestamp
  | [y₁, y₂, y₃, y₄, '-', mo₁, mo₂, '-', d₁, d₂, 'T', h₁, h₂, ':', n₁, n₂, ':',
      s₁, s₂, 'Z'] =>
    some ⟨((digitVal y₁ * 10 + digitVal y₂) * 10 + digitVal y₃) * 10 + digitVal y₄,
          digitVal mo₁ * 10 + digitVal mo₂,
          digitVal d₁ * 10 + digitVal d₂,
          digitVal h₁ * 10 + digitVal h₂,
          digitVal n₁ * 10 + digitVal n₂,
          digitVal s₁ * 10 + digitVal s₂⟩
  | _ => none

/-- The whole extraction: search, capture, parse. -/
def extractTimestamp (filename : String) : Option Timestamp :=
  (extractGroup filename.data).bind parseTs

theorem matchesAt_lit_cons (c : Char) (ps : List CharClass) (l : List Char) :
    matchesAt (CharClass.lit c :: ps) (c :: l) = matchesAt ps l := by
  simp [matchesAt, CharClass.matchesC]

theorem matchesAt_digits_append (k n : Nat) (ps : List CharClass) (l : List Char) :
    matchesAt (List.replicate k CharClass.digit ++ ps) (padNum k n ++ l) =
      matchesAt ps l := by
  induction k generalizing n with
  | zero => rfl
  | succ k ih =>
    simp only [List.replicate_succ, padNum, List.cons_append, matchesAt,
      CharClass.matchesC, dchar_isDigit, Bool.true_and]
    exact ih (n % 10 ^ k)

theorem matchesAt_ts (t : Timestamp) (rest : List Char) :
    matchesAt tsPattern ('-' :: (tsBase t ++ ('Z' :: ('-' :: rest)))) = true := by
  unfold tsPattern tsBase
  simp only [List.append_assoc, List.cons_append]
  rw [matchesAt_lit_cons, matchesAt_digits_append, matchesAt_lit_cons,
    matchesAt_digits_append, matchesAt_lit_cons, matchesAt_digits_append,
    matchesAt_lit_cons, matchesAt_digits_append, matchesAt_lit_cons,
    matchesAt_digits_append, matchesAt_lit_cons, matchesAt_digits_append]
  simp [matchesAt, CharClass.matchesC]

theorem take20_tsBase (t : Timestamp) (rest : List Char) :
    List.take 20 (tsBase t ++ ('Z' :: rest)) = tsBase t ++ ['Z'] := by
  rw [List.take_append_eq_append_take, tsBase_length]
  norm_num
  rw [tsBase_length]
  omega

theorem reSearch_append_no_dash (pre rest : List Char) (h : ∀ c ∈ pre, c ≠ '-') :
    reSearch (pre ++ rest) = reSearch rest := by
  induction pre with
  | nil => rfl
  | cons c pre ih =>
    have hc : c ≠ '-' := h c (List.mem_cons_self c pre)
    have hfalse : matchesAt tsPattern (c :: (pre ++ rest)) = false := by
      simp [tsPattern, matchesAt, CharClass.matchesC, hc]
    rw [List.cons_append]
    simp only [reSearch, hfalse, Bool.false_eq_true, if_false]
    exact ih (fun d hd => h d (List.mem_cons_of_mem c hd))

/-- C6: extracting the date-time from an encoded name recovers the
timestamp that was encoded, at second precision (whatever the
microsecond field was), for any stem without a dash — as the configured
stem `'backup'` is. -/
theorem c6_roundtrip (stem live : String) (t : Timestamp) (micro : Nat)
    (hv : t.valid) (hstem : ∀ c ∈ stem.data, c ≠ '-') :
    extractTimestamp (encodeName stem t micro live) = some t := by
  obtain ⟨y, mo, d, hr, mi, s⟩ := t
  obtain ⟨hy, hmoa, hmob, hda, hdb, hh, hmi, hs⟩ := hv
  show (extractGroup (stem.data ++
      ('-' :: (backupTime ⟨y, mo, d, hr, mi, s⟩ micro ++ ('-' :: live.data))))).bind
      parseTs = some ⟨y, mo, d, hr, mi, s⟩
  rw [backupTime_eq, List.append_assoc, List.singleton_append]
  unfold extractGroup
  rw [reSearch_append_no_dash _ _ hstem]
  have hm := matchesAt_ts ⟨y, mo, d, hr, mi, s⟩ live.data
  simp only [reSearch, hm, if_true]
  dsimp only at hy hmoa hmob hda hdb hh hmi hs
  simp only [Option.map_some', Option.some_bind, List.drop_succ_cons, List.drop_zero]
  rw [take20_tsBase]
  have hexp : tsBase ⟨y, mo, d, hr, mi, s⟩ ++ ['Z'] =
      [dchar (y / 10 ^ 3), dchar (y % 10 ^ 3 / 10 ^ 2),
        dchar (y % 10 ^ 3 % 10 ^ 2 / 10 ^ 1), dchar (y % 10 ^ 3 % 10 ^ 2 % 10 ^ 1 / 10 ^ 0),
        '-', dchar (mo / 10 ^ 1), dchar (mo % 10 ^ 1 / 10 ^ 0),
        '-', dchar (d / 10 ^ 1), dchar (d % 10 ^ 1 / 10 ^ 0),
        'T', dchar (hr / 10 ^ 1), dchar (hr % 10 ^ 1 / 10 ^ 0),
        ':', dchar (mi / 10 ^ 1), dchar (mi % 10 ^ 1 / 10 ^ 0),
        ':', dchar (s / 10 ^ 1), dchar (s % 10 ^ 1 / 10 ^ 0), 'Z'] := rfl
  rw [hexp]
  simp only [parseTs, digitVal_dchar, Option.some.injEq, Timestamp.mk.injEq]
  have e3 : (10 : Nat) ^ 3 = 1000 := by norm_num
  have e2 : (10 : Nat) ^ 2 = 100 := by norm_num
  have e1 : (10 : Nat) ^ 1 = 10 := by norm_num
  have e0 : (10 : Nat) ^ 0 = 1 := by norm_num
  simp only [e3, e2, e1, e0]
  refine ⟨?_, ?_, ?_, ?_, ?_, ?_⟩ <;> omega

/-- Witness for C6 at the concrete name of the module documentation,
`backup-2018-06-25T21:05:07Z-dumpall.sql.gz`, with a non-zero
microsecond field. -/
theorem c6_roundtrip_witness :
    Timestamp.valid ⟨2018, 6, 25, 21, 5, 7⟩ ∧
    (∀ c ∈ ("backup" : String).data, c ≠ '-') ∧
    extractTimestamp (encodeName "backup" ⟨2018, 6, 25, 21, 5, 7⟩ 123456
      "dumpall.sql.gz") = some ⟨2018, 6, 25, 21, 5, 7⟩ :=
  ⟨by decide, by decide,
    c6_roundtrip "backup" "dumpall.sql.gz" ⟨2018, 6, 25, 21, 5, 7⟩ 123456
      (by decide) (by decide)⟩

/-! ## sql-backup/backup.py: the hourly creation path (lines 551-643) -/

/-- The observable result of `subprocess.run(BACKUP_CMD, shell=True,
stderr=subprocess.PIPE)`: exit code and captured error stream. -/
structure DumpOutcome where
  returncode : Int
  stderr : String
deriving DecidableEq

/-- The terminal state of one hourly run. -/
inductive HourlyResult where
  | failed (errorNo : Nat) (liveRemoved : Bool)
  | record (filename : String)
deriving DecidableEq

/-- The hourly creation step (backup.py lines 590-643), for a run whose
dump process finished as `proc` while the live file
`/backup/hourly/dumpall.sql.gz` exists iff `livePresent`:

* the dump is treated as failed iff the exit code is non-zero or
  anything was written to the error stream (line 598); the handler then
  runs `os.remove(BACKUP)`: with the live file present it is removed
  and ERROR_BU_ERROR is reported (lines 603-611), but with the live
  file absent `os.remove` raises and the handler reports ERROR_REMOVE
  instead (lines 606-609);
* on a successful dump with no live file, ERROR_NO_BU (lines 613-616);
* otherwise the live file is archived as a Backup Record named with the
  run's start time (lines 626-643). -/
def hourlyStep (proc : DumpOutcome) (livePresent : Bool) (start : Timestamp)
    (micro : Nat) : HourlyResult :=
  if proc.returncode ≠ 0 ∨ proc.stderr ≠ "" then
    if livePresent then HourlyResult.failed ERROR_BU_ERROR true
    else HourlyResult.failed ERROR_REMOVE false
  else if livePresent = false then HourlyResult.failed ERROR_NO_BU false
  else HourlyResult.record (encodeName FILE_STEM start micro LIVE_FILE)

/-- C3 as stated is false at one corner: a failed dump (here exit code
1) with the live file absent reports ERROR_REMOVE, not the
backup-execution error ERROR_BU_ERROR. -/
theorem c3_counterexample :
    hourlyStep ⟨1, ""⟩ false ⟨2021, 1, 1, 0, 0, 0⟩ 0 =
      HourlyResult.failed ERROR_REMOVE false ∧ ERROR_REMOVE ≠ ERROR_BU_ERROR :=
  ⟨by decide, by decide⟩

/-- C3 amended: the dump is failed exactly when the exit code is
non-zero or the error stream is non-empty; on failure with the live
file present it is removed and ERROR_BU_ERROR reported, with it absent
the removal attempt fails and ERROR_REMOVE is reported; a failed run
never produces a Backup Record.  On a successful dump the only outcomes
are ERROR_NO_BU (live file missing) or a new Backup Record. -/
theorem c3_dump_failure_amended (proc : DumpOutcome) (livePresent : Bool)
    (start : Timestamp) (micro : Nat) :
    ((proc.returncode ≠ 0 ∨ proc.stderr ≠ "") →
      (livePresent = true →
        hourlyStep proc livePresent start micro =
          HourlyResult.failed ERROR_BU_ERROR true) ∧
      (livePresent = false →
        hourlyStep proc livePresent start micro =
          HourlyResult.failed ERROR_REMOVE false) ∧
      ∀ f, hourlyStep proc livePresent start micro ≠ HourlyResult.record f) ∧
    (proc.returncode = 0 ∧ proc.stderr = "" →
      hourlyStep proc livePresent start micro =
          HourlyResult.failed ERROR_NO_BU false ∨
      hourlyStep proc livePresent start micro =
        HourlyResult.record (encodeName FILE_STEM start micro LIVE_FILE)) := by
  unfold hourlyStep
  by_cases hfail : proc.returncode ≠ 0 ∨ proc.stderr ≠ ""
  · rw [if_pos hfail]
    constructor
    · intro _
      refine ⟨?_, ?_, ?_⟩
      · intro hl
        subst hl
        rfl
      · intro hl
        subst hl
        rfl
      · intro f h
        cases livePresent <;> simp at h
    · intro hok
      rcases hfail with h | h
      · exact absurd hok.1 h
      · exact absurd hok.2 h
  · rw [if_neg hfail]
    constructor
    · intro h
      exact absurd h hfail
    · intro _
      cases livePresent
      · exact Or.inl rfl
      · exact Or.inr rfl

/-- Witness for C3's amended theorem at a failing dump (exit 0 but a
non-empty error stream) with the live file present. -/
theorem c3_dump_failure_amended_witness :
    (((0 : Int) ≠ 0 ∨ ("permission denied" : String) ≠ "") →
      (true = true →
        hourlyStep ⟨0, "permission denied"⟩ true ⟨2021, 1, 1, 0, 0, 0⟩ 0 =
          HourlyResult.failed ERROR_BU_ERROR true) ∧
      (true = false →
        hourlyStep ⟨0, "permission denied"⟩ true ⟨2021, 1, 1, 0, 0, 0⟩ 0 =
          HourlyResult.failed ERROR_REMOVE false) ∧
      ∀ f, hourlyStep ⟨0, "permission denied"⟩ true ⟨2021, 1, 1, 0, 0, 0⟩ 0 ≠
        HourlyResult.record f) ∧
    (((0 : Int) = 0 ∧ ("permission denied" : String) = "") →
      hourlyStep ⟨0, "permission denied"⟩ true ⟨2021, 1, 1, 0, 0, 0⟩ 0 =
          HourlyResult.failed ERROR_NO_BU false ∨
      hourlyStep ⟨0, "permission denied"⟩ true ⟨2021, 1, 1, 0, 0, 0⟩ 0 =
        HourlyResult.record
          (encodeName FILE_STEM ⟨2021, 1, 1, 0, 0, 0⟩ 0 LIVE_FILE)) :=
  c3_dump_failure_amended ⟨0, "permission denied"⟩ true ⟨2021, 1, 1, 0, 0, 0⟩ 0

/-! ## sql-recovery/recovery.py: index, selection and age check -/

/-- Error numbers from recovery.py lines 94-98. -/
def ERROR_NO_ROOT : Nat := 1

def ERROR_LATEST_HAD_NO_DATETIME : Nat := 3

def ERROR_LATEST_TOO_OLD : Nat := 4

def ERROR_NO_LATEST : Nat := 5

/-- write_termination_message (recovery.py lines 163-174 and backup.py
lines 445-456): `FAILURE (<message>)`, or `SUCCESS` with no message. -/
def terminationMessage : Option String → String
  | some reason => "FAILURE (" ++ reason ++ ")"
  | none => "SUCCESS"

/-- One result of the recursive glob (recovery.py lines 285-289), split
as `os.path.dirname` / `os.path.basename`. -/
structure FoundPath where
  dir : String
  base : String
deriving DecidableEq

/-- `os.path.join(directory, filename)`. -/
def FoundPath.join (p : FoundPath) : String := p.dir ++ "/" ++ p.base

/-- KNOWN_BACKUPS (recovery.py lines 284-291): map a bare file name to
its directory, inserting only when the name is not yet known — the
first occurrence in scan order wins. -/
def buildKnownBackups (backups : List FoundPath) : List (String × String) :=
  backups.foldl
    (fun m b => if (m.lookup b.base).isSome then m else m ++ [(b.base, b.dir)]) []

/-- LATEST_BACKUP (recovery.py lines 293-304): the first key of
`sorted(KNOWN_BACKUPS, reverse=True)`; `none` when the index is
empty. -/
def latestBackup (known : List (String × String)) : Option String :=
  (sortDesc (known.map Prod.fst)).head?

/-- Python's substring test `needle in hay` on character lists. -/
def isSubstring : List Char → List Char → Bool
  | needle, [] => needle.isPrefixOf []
  | needle, c :: cs => needle.isPrefixOf (c :: cs) || isSubstring needle cs

/-- The terminal disposition of recovery steps 3-4. -/
structure Resolution where
  exitCode : Nat
  termLog : Option String
  backupFile : Option String
deriving DecidableEq

/-- Steps 3-4 of recovery.py (lines 343-370): `NONE` is a clean SUCCESS
exit; an empty index is a clean `FAILURE (No Backups)` exit; `LATEST`
selects the latest backup's path; any other query selects the first
known backup containing the query as a substring, in index order;
without a hit, a clean `FAILURE (Backup not found)` exit. -/
def resolveQuery (fromBackup : String) (known : List (String × String)) :
    Resolution :=
  if fromBackup = "NONE" then ⟨0, some (terminationMessage none), none⟩
  else
    match latestBackup known with
    | none => ⟨0, some (terminationMessage (some "No Backups")), none⟩
    | some latest =>
      match
        (if fromBackup = "LATEST" then
          some (((known.lookup latest).getD "") ++ "/" ++ latest)
        else
          (known.find? (fun kv => isSubstring fromBackup.data kv.1.data)).map
            (fun kv => kv.2 ++ "/" ++ kv.1)) with
      | none => ⟨0, some (terminationMessage (some "Backup not found")), none⟩
      | some f => ⟨0, none, some f⟩

theorem sortDesc_head_max (l : List String) (m : String)
    (h : (sortDesc l).head? = some m) : m ∈ l ∧ ∀ k ∈ l, k ≤ m := by
  have hperm : (sortDesc l).Perm l :=
    (List.reverse_perm (sortAsc l)).trans (sortAsc_perm l)
  have hp : List.Pairwise (fun a b => b ≤ a) (sortDesc l) :=
    List.pairwise_reverse.mpr (sortAsc_sorted_le l)
  obtain ⟨rest, hd⟩ : ∃ rest, sortDesc l = m :: rest := by
    cases hsd : sortDesc l with
    | nil => rw [hsd] at h; cases h
    | cons x xs =>
      rw [hsd] at h
      injection h with h
      exact ⟨xs, by rw [h]⟩
  constructor
  · exact hperm.subset (hd ▸ List.mem_cons_self m rest)
  · intro k hk
    have hk₂ : k ∈ sortDesc l := hperm.symm.subset hk
    rw [hd] at hk₂ hp
    rcases List.mem_cons.mp hk₂ with h₂ | h₂
    · exact le_of_eq h₂
    · exact List.rel_of_sorted_cons hp k h₂

/-- C4: resolving LATEST returns the lexicographically greatest index
key, joined with its recorded directory; with an empty index the run
makes a clean exit (code 0) reporting `No Backups`, selecting no file.  -/
theorem c4_latest_resolution (known : List (String × String)) :
    (known = [] → resolveQuery "LATEST" known =
      ⟨0, some (terminationMessage (some "No Backups")), none⟩) ∧
    (∀ m, latestBackup known = some m →
      m ∈ known.map Prod.fst ∧ (∀ k ∈ known.map Prod.fst, k ≤ m) ∧
      resolveQuery "LATEST" known =
        ⟨0, none, some (((known.lookup m).getD "") ++ "/" ++ m)⟩) := by
  constructor
  · rintro rfl
    rfl
  · intro m hm
    obtain ⟨hmem, hmax⟩ := sortDesc_head_max (known.map Prod.fst) m hm
    refine ⟨hmem, hmax, ?_⟩
    unfold resolveQuery
    rw [if_neg (by decide), hm]
    rfl

/-- Witness for C4 on the two concrete known backups of the
specification: the February record is selected. -/
theorem c4_latest_resolution_witness :
    (latestBackup
        [("backup-2021-01-01T00:00:00Z-x", "/backup/hourly"),
         ("backup-2021-02-01T00:00:00Z-x", "/backup/daily")] =
      some "backup-2021-02-01T00:00:00Z-x") ∧
    (([("backup-2021-01-01T00:00:00Z-x", "/backup/hourly"),
        ("backup-2021-02-01T00:00:00Z-x", "/backup/daily")] :
        List (String × String)) = [] →
      resolveQuery "LATEST"
          [("backup-2021-01-01T00:00:00Z-x", "/backup/hourly"),
           ("backup-2021-02-01T00:00:00Z-x", "/backup/daily")] =
        ⟨0, some (terminationMessage (some "No Backups")), none⟩) ∧
    (∀ m, latestBackup
        [("backup-2021-01-01T00:00:00Z-x", "/backup/hourly"),
         ("backup-2021-02-01T00:00:00Z-x", "/backup/daily")] = some m →
      m ∈ ([("backup-2021-01-01T00:00:00Z-x", "/backup/hourly"),
            ("backup-2021-02-01T00:00:00Z-x", "/backup/daily")].map Prod.fst) ∧
      (∀ k ∈ ([("backup-2021-01-01T00:00:00Z-x", "/backup/hourly"),
               ("backup-2021-02-01T00:00:00Z-x", "/backup/daily")].map Prod.fst),
        k ≤ m) ∧
      resolveQuery "LATEST"
          [("backup-2021-01-01T00:00:00Z-x", "/backup/hourly"),
           ("backup-2021-02-01T00:00:00Z-x", "/backup/daily")] =
        ⟨0, none,
          some ((([("backup-2021-01-01T00:00:00Z-x", "/backup/hourly"),
                   ("backup-2021-02-01T00:00:00Z-x", "/backup/daily")].lookup
              m).getD "") ++ "/" ++ m)⟩) := by
  refine ⟨by decide, ?_⟩
  exact c4_latest_resolution
    [("backup-2021-01-01T00:00:00Z-x", "/backup/hourly"),
     ("backup-2021-02-01T00:00:00Z-x", "/backup/daily")]

theorem lookup_append (k : String) (l₁ l₂ : List (String × String)) :
    (l₁ ++ l₂).lookup k = ((l₁.lookup k).or (l₂.lookup k)) := by
  induction l₁ with
  | nil => simp [List.lookup]
  | cons p l ih =>
    obtain ⟨a, b⟩ := p
    simp only [List.cons_append, List.lookup]
    cases hk : k == a
    · simpa [hk] using ih
    · simp [hk]

/-- C9: the Known-Backups Index maps every bare file name to the
directory of its first occurrence in scan order (insert-if-absent). -/
theorem c9_first_occurrence_wins (backups : List FoundPath) (name : String) :
    (buildKnownBackups backups).lookup name =
      (backups.find? (fun b => b.base == name)).map FoundPath.dir := by
  have main : ∀ (bs : List FoundPath) (acc : List (String × String)),
      (bs.foldl
        (fun m b =>
          if (m.lookup b.base).isSome then m else m ++ [(b.base, b.dir)]) acc).lookup
          name =
        ((acc.lookup name).or
          ((bs.find? (fun b => b.base == name)).map FoundPath.dir)) := by
    intro bs
    induction bs with
    | nil =>
      intro acc
      simp [List.find?]
    | cons b bs ih =>
      intro acc
      simp only [List.foldl_cons, List.find?]
      by_cases hin : (acc.lookup b.base).isSome
      · rw [if_pos hin, ih acc]
        cases hb : (b.base == name)
        · simp [hb]
        · have hbn : b.base = name := by
            simpa using hb
          subst hbn
          obtain ⟨v, hv⟩ := Option.isSome_iff_exists.mp hin
          simp [hv]
      · rw [if_neg hin, ih (acc ++ [(b.base, b.dir)]), lookup_append]
        have hnone : acc.lookup b.base = none :=
          Option.not_isSome_iff_eq_none.mp hin
        cases hb : (b.base == name)
        · have hne : ¬ (name == b.base) = true := by
            intro hx
            rw [show name = b.base from by simpa using hx] at hb
            simp at hb
          simp only [List.lookup, hne]
          simp
        · have hbn : b.base = name := by simpa using hb
          subst hbn
          rw [hnone]
          simp [List.lookup]
  rw [buildKnownBackups, main backups []]
  simp [List.lookup]

/-- Age of the latest backup in whole hours (recovery.py line 319):
`int(age.days * 24 + age.seconds / 3600)`, where `timedelta` splits a
non-negative age in seconds into whole days and a residual below
86400. -/
def latestAgeHours (ageSeconds : Nat) : Nat :=
  ageSeconds / 86400 * 24 + ageSeconds % 86400 / 3600

/-- The age check (recovery.py lines 306-338), run when a positive
maximum age is configured.  Input: the bound and the latest backup
(`none`: no latest backup at all; `some none`: a latest name without an
embedded date-time; `some (some a)`: a latest backup whose embedded
timestamp is `a` seconds old).  Output: the error number the run stops
with, or `none` when the run proceeds.  A name without a date-time is a
hard error (line 314); an over-age latest backup (lines 328-332) and a
missing latest backup (lines 333-338) only print warnings because the
`error(ERROR_LATEST_TOO_OLD)` and `error(ERROR_NO_LATEST)` calls are
commented out. -/
def ageCheck (maxAgeH : Nat) (latest : Option (Option Nat)) : Option Nat :=
  if maxAgeH ≠ 0 then
    match latest with
    | some none => some ERROR_LATEST_HAD_NO_DATETIME
    | some (some _) => none
    | none => none
  else none

/-- C8: with a positive bound configured, a latest backup older than
the bound only warns (the run proceeds), and so does the complete
absence of backups; the hard-failure error numbers exist but are never
returned. -/
theorem c8_age_check_warn_only (bound ageSeconds : Nat)
    (hb : 0 < bound) (_hold : bound < latestAgeHours ageSeconds) :
    ageCheck bound (some (some ageSeconds)) = none ∧
    ageCheck bound none = none ∧
    ERROR_LATEST_TOO_OLD = 4 ∧ ERROR_NO_LATEST = 5 := by
  have hb' : bound ≠ 0 := by omega
  exact ⟨by simp [ageCheck, hb'], by simp [ageCheck, hb'], rfl, rfl⟩

/-- Witness for C8: a 48-hour-old latest backup against a 1-hour
bound. -/
theorem c8_age_check_warn_only_witness :
    0 < 1 ∧ 1 < latestAgeHours 172800 ∧
    (ageCheck 1 (some (some 172800)) = none ∧
     ageCheck 1 none = none ∧
     ERROR_LATEST_TOO_OLD = 4 ∧ ERROR_NO_LATEST = 5) :=
  ⟨by decide, by decide, c8_age_check_warn_only 1 172800 (by decide) (by decide)⟩

/-- After `for BACKUP in BACKUPS:` (recovery.py lines 287-291) the loop
variable BACKUP keeps the last path the glob produced; the unpack
failure handler `os.remove(BACKUP)` (recovery.py line 391) therefore
removes that path — not the selected BACKUP_FILE. -/
def unpackFailureRemoves (backups : List FoundPath) : Option String :=
  (backups.getLast?).map FoundPath.join

/-- C10: on a failed unpack the file removed is the last record of the
index scan — one of the stored Backup Records — and in general not the
selected backup: in the concrete run below, recovery of the (February)
LATEST backup deletes the unrelated January record from another
tier. -/
theorem c10_unpack_failure_removes_scan_leftover :
    (∀ backups : List FoundPath, backups ≠ [] →
      ∃ p ∈ backups, unpackFailureRemoves backups = some p.join) ∧
    (unpackFailureRemoves
        [⟨"/backup/hourly", "backup-2021-02-01T00:00:00Z-dumpall.sql.gz"⟩,
         ⟨"/backup/daily", "backup-2021-01-01T00:00:00Z-dumpall.sql.gz"⟩] =
      some "/backup/daily/backup-2021-01-01T00:00:00Z-dumpall.sql.gz" ∧
     (resolveQuery "LATEST"
         (buildKnownBackups
           [⟨"/backup/hourly", "backup-2021-02-01T00:00:00Z-dumpall.sql.gz"⟩,
            ⟨"/backup/daily", "backup-2021-01-01T00:00:00Z-dumpall.sql.gz"⟩])).backupFile =
       some "/backup/hourly/backup-2021-02-01T00:00:00Z-dumpall.sql.gz" ∧
     unpackFailureRemoves
         [⟨"/backup/hourly", "backup-2021-02-01T00:00:00Z-dumpall.sql.gz"⟩,
          ⟨"/backup/daily", "backup-2021-01-01T00:00:00Z-dumpall.sql.gz"⟩] ≠
       (resolveQuery "LATEST"
         (buildKnownBackups
           [⟨"/backup/hourly", "backup-2021-02-01T00:00:00Z-dumpall.sql.gz"⟩,
            ⟨"/backup/daily", "backup-2021-01-01T00:00:00Z-dumpall.sql.gz"⟩])).backupFile) := by
  constructor
  · intro backups hne
    have hl : backups.getLast? = some (backups.getLast hne) :=
      List.getLast?_eq_getLast backups hne
    refine ⟨backups.getLast hne, List.getLast_mem hne, ?_⟩
    simp [unpackFailureRemoves, hl]
  · exact ⟨by decide, by decide, by decide⟩

/-- Witness for C10: the universally quantified part applied to the
same concrete two-record scan. -/
theorem c10_unpack_failure_removes_scan_leftover_witness :
    (([⟨"/backup/hourly", "backup-2021-02-01T00:00:00Z-dumpall.sql.gz"⟩,
       ⟨"/backup/daily", "backup-2021-01-01T00:00:00Z-dumpall.sql.gz"⟩] :
        List FoundPath) ≠ []) ∧
    ∃ p ∈ ([⟨"/backup/hourly", "backup-2021-02-01T00:00:00Z-dumpall.sql.gz"⟩,
            ⟨"/backup/daily", "backup-2021-01-01T00:00:00Z-dumpall.sql.gz"⟩] :
        List FoundPath),
      unpackFailureRemoves
          [⟨"/backup/hourly", "backup-2021-02-01T00:00:00Z-dumpall.sql.gz"⟩,
           ⟨"/backup/daily", "backup-2021-01-01T00:00:00Z-dumpall.sql.gz"⟩] =
        some p.join :=
  ⟨by decide,
    c10_unpack_failure_removes_scan_leftover.1
      [⟨"/backup/hourly", "backup-2021-02-01T00:00:00Z-dumpall.sql.gz"⟩,
       ⟨"/backup/daily", "backup-2021-01-01T00:00:00Z-dumpall.sql.gz"⟩]
      (by decide)⟩

/-! ## The process exit contract (all four scripts) -/

/-- The observable termination of one run: the process exit code and
what was written to /dev/termination-log (`none`: nothing written). -/
structure ExitOutcome where
  exitCode : Nat
  termLog : Option String
deriving DecidableEq

/-- sql-backup `error` (backup.py lines 459-472): write
`FAILURE (<error number>)` to the termination log and exit 0. -/
def sqlBackupError (errorNo : Nat) : ExitOutcome :=
  ⟨0, some (terminationMessage (some (toString errorNo)))⟩

/-- sql-recovery `error` (recovery.py lines 192-204): identical to
sql-backup's. -/
def sqlRecoveryError (errorNo : Nat) : ExitOutcome :=
  ⟨0, some (terminationMessage (some (toString errorNo)))⟩

/-- postgresql-backup `error` (postgresql-backup/backup.py lines
285-296): print and exit 0; no termination message is written (the
script has no write_termination_message at all). -/
def pgBackupError (_errorNo : Nat) : ExitOutcome := ⟨0, none⟩

/-- postgresql-recovery, missing backup root
(postgresql-recovery/recovery.py lines 112-114): print and
`sys.exit(3)`; that script writes no termination messages either. -/
def pgRecoveryNoRootExit : ExitOutcome := ⟨3, none⟩

/-- C7 as stated is false: the handled missing-backup-root condition of
postgresql-recovery exits with code 3, and postgresql-backup's handled
errors write nothing to the termination log. -/
theorem c7_counterexample :
    pgRecoveryNoRootExit.exitCode = 3 ∧ (3 : Nat) ≠ 0 ∧
    (pgBackupError ERROR_BU_ERROR).termLog = none :=
  ⟨rfl, by decide, rfl⟩

/-- C7 amended: sql-backup and sql-recovery exit 0 on every handled
error and write a `FAILURE (<reason>)` termination message (`SUCCESS`
on a clean run); postgresql-backup exits 0 but writes no termination
message; postgresql-recovery exits with code 3 on a missing backup
root. -/
theorem c7_exit_contract_amended (n : Nat) :
    sqlBackupError n = ⟨0, some ("FAILURE (" ++ toString n ++ ")")⟩ ∧
    sqlRecoveryError n = ⟨0, some ("FAILURE (" ++ toString n ++ ")")⟩ ∧
    terminationMessage none = "SUCCESS" ∧
    pgBackupError n = ⟨0, none⟩ ∧
    pgRecoveryNoRootExit = ⟨3, none⟩ :=
  ⟨rfl, rfl, rfl, rfl, rfl⟩

end Bandr
